import Mathlib

/-!
Verification of the RPG battle engine (`rpg/models.py` and `rpg/battle.py`).

The Python source is shallowly embedded: Python `int` becomes `Int`,
Python `float` coefficients become `Rat` (the battles considered use
exactly representable values), and the in-place mutation of `Character`
and `Battle` objects becomes explicit state passing over the structures
below.  Dictionaries produced for the battle log become structures with
`Option` fields (`none` = key absent).
-/

namespace RPG

/-- Truncation toward zero, modelling Python's `int(x)` applied to a real
value.  `Int.tdiv` is T-division, so `num.tdiv den` truncates the fraction
toward zero. -/
def truncToInt (q : Rat) : Int := Int.tdiv q.num (q.den : Int)

/-- Python's `int(n * q)` for an integer stat `n` and rational coefficient
`q`, computed on the unreduced fraction `(n * q.num) / q.den` so that it
evaluates by kernel reduction.  `truncToInt_intCast_mul` below proves it
equal to `truncToInt ((n : Rat) * q)`. -/
def intTimesRat (n : Int) (q : Rat) : Int := Int.tdiv (n * q.num) (q.den : Int)

/-- Quotients by T-division agree on cross-equal fractions with positive
denominators. -/
lemma tdiv_congr :
    ∀ {a b c d : Int}, 0 < b → 0 < d → a * d = c * b → a.tdiv b = c.tdiv d := by
  have nonneg : ∀ {a b c d : Int}, 0 ≤ a → 0 < b → 0 < d → a * d = c * b →
      a.tdiv b = c.tdiv d := by
    intro a b c d ha hb hd h
    have hc : 0 ≤ c := by nlinarith
    rw [Int.tdiv_eq_ediv ha hb.le, Int.tdiv_eq_ediv hc hd.le]
    calc a / b = (d * a) / (d * b) := (Int.mul_ediv_mul_of_pos a b hd).symm
      _ = (b * c) / (b * d) := by rw [mul_comm d a, h, mul_comm c b, mul_comm d b]
      _ = c / d := Int.mul_ediv_mul_of_pos c d hb
  intro a b c d hb hd h
  rcases le_or_lt 0 a with ha | ha
  · exact nonneg ha hb hd h
  · have h' : (-a) * d = (-c) * b := by ring_nf; omega
    have := nonneg (by omega) hb hd h'
    rw [Int.neg_tdiv, Int.neg_tdiv] at this
    omega

/-- The function `intTimesRat` agrees with truncating the exact rational product:
the embedding's integer-only damage/heal amount equals
`int(stat * coefficient)` on the mathematical value. -/
lemma truncToInt_intCast_mul (n : Int) (q : Rat) :
    truncToInt ((n : Rat) * q) = intTimesRat n q := by
  unfold truncToInt intTimesRat
  have hcross : ((n : Rat) * q).num * (q.den : Int) =
      (n * q.num) * (((n : Rat) * q).den : Int) := by
    have := Rat.mul_num_den' ((n : Rat)) q
    simpa [Rat.num_intCast, Rat.den_intCast] using this
  exact tdiv_congr
    (by exact_mod_cast ((n : Rat) * q).pos)
    (by exact_mod_cast q.pos)
    hcross

/-- Embedding of `models.Effect`: a single effect within a skill. -/
structure Effect where
  effect_type : String
  coefficient : Rat
  status_name : Option String
deriving DecidableEq, Repr

/-- Embedding of `models.Skill`: a named, ordered list of effects. -/
structure Skill where
  name : String
  effects : List Effect
deriving DecidableEq, Repr

/-- Embedding of `models.StatusEffect`: a named, timed condition on a character. -/
structure StatusEffect where
  name : String
  magnitude : Rat
  duration : Int
deriving DecidableEq, Repr

/-- Embedding of `models.Character`: stats plus the mutable battle state (`hp`, `sp`,
`status_effects`).  The dataclass stores the constructor arguments and
`__post_init__` adds `hp` and `sp`; here they are ordinary fields and
`Character.make` plays the role of the constructor. -/
structure Character where
  name : String
  max_hp : Int
  max_sp : Int
  atk : Int
  rcv : Int
  speed : Int
  action_count : Int
  skills : List Skill
  status_effects : List StatusEffect
  hp : Int
  sp : Int
deriving DecidableEq, Repr

/-- The dataclass constructor: `__post_init__` sets `hp = max_hp` and
`sp = max_sp`. -/
def Character.make (name : String) (max_hp max_sp atk rcv speed action_count : Int)
    (skills : List Skill) (status_effects : List StatusEffect) : Character :=
  ⟨name, max_hp, max_sp, atk, rcv, speed, action_count, skills, status_effects,
    max_hp, max_sp⟩

/-- Embedding of `Character.is_alive`: `hp > 0`. -/
def Character.is_alive (c : Character) : Bool := decide (0 < c.hp)

/-- Embedding of `Character.take_damage`: clamp the amount to `>= 0` then to `<= hp`,
subtract, and return the updated character together with the actual damage
(the Python method mutates `self` and returns the damage). -/
def Character.take_damage (c : Character) (amount : Int) : Character × Int :=
  let amt := max 0 amount
  let actual := min amt c.hp
  ({ c with hp := c.hp - actual }, actual)

/-- Embedding of `Character.heal_hp`: clamp the amount to `>= 0` then to `<= max_hp - hp`,
add, and return the updated character together with the actual healing. -/
def Character.heal_hp (c : Character) (amount : Int) : Character × Int :=
  let amt := max 0 amount
  let actual := min amt (c.max_hp - c.hp)
  ({ c with hp := c.hp + actual }, actual)

/-- The loop body of `Character.apply_status`: overwrite the magnitude and
duration of the first entry with the same name, otherwise append. -/
def refreshList (s : StatusEffect) : List StatusEffect → List StatusEffect
  | [] => [s]
  | e :: rest =>
    if e.name = s.name then
      { e with magnitude := s.magnitude, duration := s.duration } :: rest
    else
      e :: refreshList s rest

/-- Embedding of `Character.apply_status`: refresh an existing same-named status effect
in place, or append the new one. -/
def Character.apply_status (c : Character) (s : StatusEffect) : Character :=
  { c with status_effects := refreshList s c.status_effects }

/-- A default `Character`, used only as the `List.getD` fallback when an
actor index is looked up (indices produced by the engine are always in
range, so the fallback is never reached on real runs). -/
def defaultChar : Character := Character.make "" 0 0 0 0 0 0 [] []

/-- A default `Skill` for out-of-range `List.getD` lookups (never reached:
skill indices are below `min action_count (length skills)`). -/
def defaultSkill : Skill := ⟨"", []⟩

/-- The mutable character state owned by a `Battle`: the `player` and
`enemies` fields of `battle.Battle`. -/
structure BattleChars where
  player : Character
  enemies : List Character
deriving DecidableEq, Repr

/-- Identity of a battle participant.  The Python engine passes object
references around; the embedding identifies the player and each enemy by
its roster position instead. -/
inductive ActorId where
  | player : ActorId
  | enemy : Nat → ActorId
deriving DecidableEq, Repr

/-- Dereference an `ActorId` in the current state. -/
def getChar (chars : BattleChars) : ActorId → Character
  | .player => chars.player
  | .enemy i => chars.enemies.getD i defaultChar

/-- Write back the (mutated) character behind an `ActorId`. -/
def setChar (chars : BattleChars) : ActorId → Character → BattleChars
  | .player, c => { chars with player := c }
  | .enemy i, c => { chars with enemies := chars.enemies.set i c }

/-- Embedding of `Battle._living_enemies`. -/
def living_enemies (chars : BattleChars) : List Character :=
  chars.enemies.filter (fun c => c.is_alive)

/-- Embedding of `Battle._is_over`: the player is dead or no enemy is alive. -/
def is_over (chars : BattleChars) : Bool :=
  !chars.player.is_alive || (living_enemies chars).isEmpty

/-- The roster positions of the living enemies, in roster order. -/
def living_enemy_ids (chars : BattleChars) : List Nat :=
  (List.range chars.enemies.length).filter
    (fun i => (chars.enemies.getD i defaultChar).is_alive)

/-- Embedding of `Battle._get_target`: the player targets the first living enemy in
roster order; an enemy targets the player if alive. -/
def get_target (chars : BattleChars) : ActorId → Option ActorId
  | .player => (living_enemy_ids chars).head?.map ActorId.enemy
  | .enemy _ => if chars.player.is_alive then some ActorId.player else none

/-- One entry of an action's `effects` log: the result dict built by
`Battle._apply_effect`.  `none` models an absent key. -/
structure EffectRecord where
  effect_type : String
  coefficient : Rat
  target : Option String
  damage : Option Int
  healed : Option Int
  status_name : Option String
  magnitude : Option Rat
deriving DecidableEq, Repr

/-- The result dict before any branch of `_apply_effect` adds fields:
only the `effect_type` and `coefficient` keys are present. -/
def baseRecord (e : Effect) : EffectRecord :=
  ⟨e.effect_type, e.coefficient, none, none, none, none, none⟩

/-- Embedding of `Battle._apply_effect`: resolve one effect against the given target and
produce the result record.  Unknown effect types fall through every branch
and change nothing. -/
def apply_effect (chars : BattleChars) (actorId : ActorId) (e : Effect)
    (targetId : ActorId) : BattleChars × EffectRecord :=
  if e.effect_type = "damage" then
    let amount := intTimesRat (getChar chars actorId).atk e.coefficient
    let p := (getChar chars targetId).take_damage amount
    (setChar chars targetId p.1,
      { baseRecord e with target := some p.1.name, damage := some p.2 })
  else if e.effect_type = "heal" then
    let amount := intTimesRat (getChar chars actorId).rcv e.coefficient
    let p := (getChar chars actorId).heal_hp amount
    (setChar chars actorId p.1,
      { baseRecord e with target := some p.1.name, healed := some p.2 })
  else if e.effect_type = "status" then
    let se : StatusEffect := ⟨e.status_name.getD "unknown", e.coefficient, 3⟩
    let tgt := (getChar chars targetId).apply_status se
    (setChar chars targetId tgt,
      { baseRecord e with target := some tgt.name,
                          status_name := some se.name,
                          magnitude := some se.magnitude })
  else
    (chars, baseRecord e)

/-- The effect loop of `Battle._execute_skill`: walk the effects in order,
stopping if the actor has died; offensive effects re-resolve a stale or
dead cached target and stop the skill when no target exists; every other
effect type goes through the self-target branch. -/
def runEffects (actorId : ActorId) :
    BattleChars → Option ActorId → List Effect → BattleChars × List EffectRecord
  | chars, _, [] => (chars, [])
  | chars, target, e :: rest =>
    if (getChar chars actorId).is_alive = false then
      (chars, [])
    else if e.effect_type = "damage" ∨ e.effect_type = "status" then
      let target' :=
        match target with
        | none => get_target chars actorId
        | some t =>
          if (getChar chars t).is_alive then some t else get_target chars actorId
      match target' with
      | none => (chars, [])
      | some t =>
        let p := apply_effect chars actorId e t
        let q := runEffects actorId p.1 (some t) rest
        (q.1, p.2 :: q.2)
    else
      let p := apply_effect chars actorId e actorId
      let q := runEffects actorId p.1 target rest
      (q.1, p.2 :: q.2)

/-- One entry of a turn's `actions` log. -/
structure ActionRecord where
  actor : String
  skill : Skill
  effects : List EffectRecord
deriving DecidableEq, Repr

/-- Embedding of `Battle._execute_skill`: run one skill and build its action record. -/
def execute_skill (chars : BattleChars) (actorId : ActorId) (skillIndex : Nat) :
    BattleChars × ActionRecord :=
  let skill := (getChar chars actorId).skills.getD skillIndex defaultSkill
  let p := runEffects actorId chars (get_target chars actorId) skill.effects
  (p.1, ⟨(getChar p.1 actorId).name, skill, p.2⟩)

/-- One element of a turn's `status_at_start` snapshot list. -/
structure Snapshot where
  name : String
  hp : Int
  max_hp : Int
  sp : Int
  max_sp : Int
  status_effects : List StatusEffect
deriving DecidableEq, Repr

/-- Embedding of `Battle._snapshot` for one character. -/
def snapshot_of (c : Character) : Snapshot :=
  ⟨c.name, c.hp, c.max_hp, c.sp, c.max_sp, c.status_effects⟩

/-- Embedding of `Battle._snapshot`: the player followed by every enemy. -/
def snapshot (chars : BattleChars) : List Snapshot :=
  snapshot_of chars.player :: chars.enemies.map snapshot_of

/-- The in-place `duration -= 1` of the tick loop. -/
def decrement_se (se : StatusEffect) : StatusEffect :=
  { se with duration := se.duration - 1 }

/-- End-of-turn tick for one character: drop status effects whose duration
is `<= 0`, then decrement the duration of the survivors. -/
def tick_status (c : Character) : Character :=
  { c with
    status_effects :=
      List.map decrement_se
        (List.filter (fun se => decide (0 < se.duration)) c.status_effects) }

/-- Embedding of `Battle._tick_status_effects`: tick the player and every enemy,
living or dead. -/
def tick_status_effects (chars : BattleChars) : BattleChars :=
  ⟨tick_status chars.player, chars.enemies.map tick_status⟩

/-- One record of the turn log. -/
structure TurnLog where
  turn : Nat
  status_at_start : List Snapshot
  actions : List ActionRecord
deriving DecidableEq, Repr

/-- The dict returned by `Battle.run`. -/
structure RunResult where
  result : String
  turns : List TurnLog
deriving DecidableEq, Repr

/-- Embedding of `battle.Battle`: the two character rosters plus the accumulated
`_turn_logs`. -/
structure Battle where
  chars : BattleChars
  turnLogs : List TurnLog
deriving DecidableEq, Repr

/-- The ids of all characters in `[self.player] + self.enemies` order. -/
def allIds (chars : BattleChars) : List ActorId :=
  ActorId.player :: (List.range chars.enemies.length).map ActorId.enemy

/-- Stable descending insertion by current speed: an element is placed
before the first strictly slower one, so among equal speeds the original
order is preserved — exactly the order produced by Python's stable
`sorted(..., key=speed, reverse=True)`. -/
def insertBySpeed (chars : BattleChars) (x : ActorId) : List ActorId → List ActorId
  | [] => [x]
  | y :: ys =>
    if (getChar chars y).speed ≤ (getChar chars x).speed then
      x :: y :: ys
    else
      y :: insertBySpeed chars x ys

/-- Stable sort by descending speed (see `insertBySpeed`). -/
def sortBySpeed (chars : BattleChars) : List ActorId → List ActorId
  | [] => []
  | x :: xs => insertBySpeed chars x (sortBySpeed chars xs)

/-- The acting order computed at the start of a turn: all living
characters, player first then enemies in roster order, sorted by
descending speed (stable). -/
def acting_order (chars : BattleChars) : List ActorId :=
  sortBySpeed chars ((allIds chars).filter (fun id => (getChar chars id).is_alive))

/-- The inner action loop of `Battle.run`: execute the given skill indices
for one actor, stopping (break) as soon as the actor is dead or the battle
is over. -/
def runSkillIdxs (actorId : ActorId) :
    BattleChars → List Nat → BattleChars × List ActionRecord
  | chars, [] => (chars, [])
  | chars, i :: rest =>
    if (getChar chars actorId).is_alive = false ∨ is_over chars = true then
      (chars, [])
    else
      let p := execute_skill chars actorId i
      let q := runSkillIdxs actorId p.1 rest
      (q.1, p.2 :: q.2)

/-- The per-actor loop of `Battle.run`: for each actor of the precomputed
order, break out of the whole loop if the actor is dead or the battle is
over; otherwise run `min(action_count, len(skills))` skills starting from
index 0. -/
def runActors : BattleChars → List ActorId → BattleChars × List ActionRecord
  | chars, [] => (chars, [])
  | chars, id :: rest =>
    if (getChar chars id).is_alive = false ∨ is_over chars = true then
      (chars, [])
    else
      let n := min (getChar chars id).action_count ((getChar chars id).skills.length : Int)
      let p := runSkillIdxs id chars (List.range n.toNat)
      let q := runActors p.1 rest
      (q.1, p.2 ++ q.2)

/-- One iteration of the `while` loop of `Battle.run`: snapshot, compute
the acting order, run the actors, tick status effects, and produce the
turn's log record. -/
def doTurn (chars : BattleChars) (turnNumber : Nat) : BattleChars × TurnLog :=
  let snap := snapshot chars
  let p := runActors chars (acting_order chars)
  (tick_status_effects p.1, ⟨turnNumber, snap, p.2⟩)

/-- Embedding of `_MAX_TURNS`: safety cap of the run loop. -/
def MAX_TURNS : Nat := 100

/-- The `while not self._is_over() and turn_number < _MAX_TURNS` loop:
`fuel` is the number of turns still allowed (`_MAX_TURNS - turn_number`).
Returns the final character state and the newly appended turn records. -/
def runTurns : Nat → Nat → BattleChars → BattleChars × List TurnLog
  | 0, _, chars => (chars, [])
  | fuel + 1, turnNumber, chars =>
    if is_over chars = true then
      (chars, [])
    else
      let p := doTurn chars (turnNumber + 1)
      let q := runTurns fuel (turnNumber + 1) p.1
      (q.1, p.2 :: q.2)

/-- The outcome conditional after the loop of `Battle.run` exits. -/
def outcome (chars : BattleChars) : String :=
  if chars.player.is_alive = true ∧ living_enemies chars = [] then
    "player_win"
  else if chars.player.is_alive = false then
    "player_lose"
  else
    "draw"

/-- Embedding of `Battle.run`: run the loop (the local `turn_number` restarts at 0 on
every call), append the new records to `_turn_logs`, and return the
result dict. -/
def Battle.run (b : Battle) : Battle × RunResult :=
  let p := runTurns MAX_TURNS 0 b.chars
  let logs := b.turnLogs ++ p.2
  (⟨p.1, logs⟩, ⟨outcome p.1, logs⟩)

/-! ## Theorems -/

/-- A character built by the dataclass constructor with a negative
`max_hp`: `__post_init__` sets `hp = max_hp = -3`. -/
def brokenChar : Character := Character.make "X" (-3) 0 0 0 0 0 [] []

/-- C7 counterexample: on `brokenChar` (constructed with `max_hp = -3`,
hence `hp = -3`), `take_damage (-1)` returns `-3` (not `0`) and sets `hp`
to `0` (changing it), refuting "for every amount < 0 both operations
return 0 and leave hp unchanged". -/
theorem C7_counterexample :
    brokenChar.hp = -3 ∧
    (brokenChar.take_damage (-1)).2 = -3 ∧
    (brokenChar.take_damage (-1)).1.hp = 0 ∧
    ¬((brokenChar.take_damage (-1)).2 = 0 ∧
      (brokenChar.take_damage (-1)).1.hp = brokenChar.hp) := by
  decide

/-- C7 (amended): `take_damage` clamps the amount to `>= 0` then to
`<= hp`, subtracts exactly that clamped value and returns it;
`heal_hp` symmetrically clamps to `>= 0` then to `<= max_hp - hp`;
neither raises (both are total).  For every `amount < 0` the operations
return `0` and leave `hp` unchanged *provided* `0 <= hp` (for
`take_damage`), respectively `hp <= max_hp` (for `heal_hp`). -/
theorem C7_theorem (c : Character) (amt : Int) :
    (c.take_damage amt).2 = min (max 0 amt) c.hp ∧
    (c.take_damage amt).1.hp = c.hp - min (max 0 amt) c.hp ∧
    (c.heal_hp amt).2 = min (max 0 amt) (c.max_hp - c.hp) ∧
    (c.heal_hp amt).1.hp = c.hp + min (max 0 amt) (c.max_hp - c.hp) ∧
    (amt < 0 → 0 ≤ c.hp →
      (c.take_damage amt).2 = 0 ∧ (c.take_damage amt).1.hp = c.hp) ∧
    (amt < 0 → c.hp ≤ c.max_hp →
      (c.heal_hp amt).2 = 0 ∧ (c.heal_hp amt).1.hp = c.hp) := by
  refine ⟨rfl, rfl, rfl, rfl, ?_, ?_⟩ <;>
    · intro h1 h2
      constructor <;> simp [Character.take_damage, Character.heal_hp] <;> omega

/-- C7 witness: the amended theorem applied to a healthy concrete
character and `amount = -5`. -/
theorem C7_witness :
    ((Character.make "H" 10 0 0 0 0 0 [] []).take_damage (-5)).2 = 0 ∧
    ((Character.make "H" 10 0 0 0 0 0 [] []).take_damage (-5)).1.hp =
      (Character.make "H" 10 0 0 0 0 0 [] []).hp :=
  (C7_theorem (Character.make "H" 10 0 0 0 0 0 [] []) (-5)).2.2.2.2.1
    (by decide) (by decide)

/-- Lemma: `refreshList` keeps the length when some entry already has the name. -/
lemma refreshList_length_of_mem (s : StatusEffect) :
    ∀ l : List StatusEffect, (∃ e ∈ l, e.name = s.name) →
      (refreshList s l).length = l.length := by
  intro l
  induction l with
  | nil => rintro ⟨e, he, _⟩; cases he
  | cons a rest ih =>
    rintro ⟨e, he, hname⟩
    by_cases ha : a.name = s.name
    · simp [refreshList, ha]
    · have : e ∈ rest := by
        rcases List.mem_cons.mp he with h | h
        · exact absurd (h ▸ hname) ha
        · exact h
      simp [refreshList, ha, ih ⟨e, this, hname⟩]

/-- Lemma: `refreshList` appends when no entry has the name. -/
lemma refreshList_of_not_mem (s : StatusEffect) :
    ∀ l : List StatusEffect, (∀ e ∈ l, e.name ≠ s.name) →
      refreshList s l = l ++ [s] := by
  intro l
  induction l with
  | nil => intro _; rfl
  | cons a rest ih =>
    intro h
    have ha : a.name ≠ s.name := h a (by simp)
    simp only [refreshList, if_neg ha, List.cons_append, List.cons.injEq, true_and]
    exact ih (fun e he => h e (by simp [he]))

/-- Lemma: `refreshList` overwrites the first matching entry in place. -/
lemma refreshList_overwrite (s : StatusEffect) :
    ∀ (l₁ : List StatusEffect) (e : StatusEffect) (l₂ : List StatusEffect),
      (∀ x ∈ l₁, x.name ≠ s.name) → e.name = s.name →
      refreshList s (l₁ ++ e :: l₂) =
        l₁ ++ { e with magnitude := s.magnitude, duration := s.duration } :: l₂ := by
  intro l₁
  induction l₁ with
  | nil => intro e l₂ _ he; simp [refreshList, he]
  | cons a rest ih =>
    intro e l₂ h he
    have ha : a.name ≠ s.name := h a (by simp)
    simp only [List.cons_append, refreshList, if_neg ha, List.cons.injEq, true_and]
    exact ih e l₂ (fun x hx => h x (by simp [hx])) he

/-- C8: `apply_status` with an already-present name overwrites the first
matching entry's magnitude and duration in place, keeping the list length;
with a fresh name it appends the status, increasing the length by exactly
one; applying two differently-named statuses to a character with no
statuses yields exactly the two entries. -/
theorem C8_theorem (c : Character) (s : StatusEffect) :
    ((∃ e ∈ c.status_effects, e.name = s.name) →
      (c.apply_status s).status_effects.length = c.status_effects.length) ∧
    ((∀ e ∈ c.status_effects, e.name ≠ s.name) →
      (c.apply_status s).status_effects = c.status_effects ++ [s] ∧
      (c.apply_status s).status_effects.length = c.status_effects.length + 1) ∧
    (∀ (l₁ : List StatusEffect) (e : StatusEffect) (l₂ : List StatusEffect),
      c.status_effects = l₁ ++ e :: l₂ → (∀ x ∈ l₁, x.name ≠ s.name) →
      e.name = s.name →
      (c.apply_status s).status_effects =
        l₁ ++ { e with magnitude := s.magnitude, duration := s.duration } :: l₂) ∧
    (∀ s₂ : StatusEffect, c.status_effects = [] → s.name ≠ s₂.name →
      ((c.apply_status s).apply_status s₂).status_effects = [s, s₂]) := by
  refine ⟨?_, ?_, ?_, ?_⟩
  · intro h
    exact refreshList_length_of_mem s c.status_effects h
  · intro h
    have := refreshList_of_not_mem s c.status_effects h
    constructor
    · exact this
    · simp [Character.apply_status, this]
  · intro l₁ e l₂ hsplit h1 he
    have := refreshList_overwrite s l₁ e l₂ h1 he
    simp [Character.apply_status, hsplit, this]
  · intro s₂ hempty hne
    simp [Character.apply_status, hempty, refreshList, hne]

/-- C8 witness: refreshing `poison` on a character that already has it
keeps a single entry; the general theorem applied at concrete inputs. -/
theorem C8_witness :
    ((Character.make "H" 10 0 0 0 0 0 [] [⟨"poison", 3/10, 2⟩]).apply_status
        ⟨"poison", 7/10, 5⟩).status_effects.length =
      (Character.make "H" 10 0 0 0 0 0 [] [⟨"poison", 3/10, 2⟩]).status_effects.length :=
  (C8_theorem (Character.make "H" 10 0 0 0 0 0 [] [⟨"poison", 3/10, 2⟩])
    ⟨"poison", 7/10, 5⟩).1 (by decide)

/-- One tick of a character holding a single live status effect. -/
lemma tick_status_single (c : Character) (n : String) (m : Rat) (d : Int)
    (h : c.status_effects = [⟨n, m, d⟩]) (hd : 0 < d) :
    (tick_status c).status_effects = [⟨n, m, d - 1⟩] := by
  simp [tick_status, h, decrement_se, hd]

/-- One tick of a character holding a single expired status effect. -/
lemma tick_status_expired (c : Character) (n : String) (m : Rat) (d : Int)
    (h : c.status_effects = [⟨n, m, d⟩]) (hd : ¬ 0 < d) :
    (tick_status c).status_effects = [] := by
  simp [tick_status, h, hd]

/-- C4: the end-of-turn tick hits the player and every enemy (living or
dead); per character it keeps exactly the status effects whose duration
was `> 0` before the tick and decrements their durations by 1; hence a
status applied with duration 3 and never refreshed is still present after
each of the first 3 ticks (with durations 2, 1, 0) and is removed by the
4th tick. -/
theorem C4_theorem :
    (∀ chars : BattleChars,
      (tick_status_effects chars).player = tick_status chars.player ∧
      (tick_status_effects chars).enemies = chars.enemies.map tick_status) ∧
    (∀ (c : Character) (se' : StatusEffect),
      se' ∈ (tick_status c).status_effects ↔
        ∃ se ∈ c.status_effects, 0 < se.duration ∧ se' = decrement_se se) ∧
    (∀ (c : Character) (n : String) (m : Rat),
      c.status_effects = [⟨n, m, 3⟩] →
        (∀ k : Nat, k ≤ 3 →
          (tick_status^[k] c).status_effects = [⟨n, m, 3 - (k : Int)⟩]) ∧
        (tick_status^[4] c).status_effects = []) := by
  refine ⟨fun chars => ⟨rfl, rfl⟩, ?_, ?_⟩
  · intro c se'
    simp only [tick_status, List.mem_map, List.mem_filter, decide_eq_true_eq]
    constructor
    · rintro ⟨se, ⟨hmem, hdur⟩, hse⟩
      exact ⟨se, hmem, hdur, hse.symm⟩
    · rintro ⟨se, hmem, hdur, hse⟩
      exact ⟨se, ⟨hmem, hdur⟩, hse.symm⟩
  · intro c n m h
    have h1 : (tick_status^[1] c).status_effects = [⟨n, m, 2⟩] := by
      simpa using tick_status_single c n m 3 h (by norm_num)
    have h2 : (tick_status^[2] c).status_effects = [⟨n, m, 1⟩] := by
      have := tick_status_single (tick_status^[1] c) n m 2 h1 (by norm_num)
      simpa [← Function.iterate_succ_apply'] using this
    have h3 : (tick_status^[3] c).status_effects = [⟨n, m, 0⟩] := by
      have := tick_status_single (tick_status^[2] c) n m 1 h2 (by norm_num)
      simpa [← Function.iterate_succ_apply'] using this
    have h4 : (tick_status^[4] c).status_effects = [] := by
      have := tick_status_expired (tick_status^[3] c) n m 0 h3 (by norm_num)
      simpa [← Function.iterate_succ_apply'] using this
    refine ⟨?_, h4⟩
    intro k hk
    interval_cases k
    · simpa using h
    · simpa using h1
    · simpa using h2
    · simpa using h3

/-- C4 witness: the duration-3 trace instantiated at a concrete character;
after 2 ticks `poison` is still present with duration 1. -/
theorem C4_witness :
    (tick_status^[2]
        (Character.make "H" 10 0 0 0 0 0 [] [⟨"poison", 1, 3⟩])).status_effects =
      [⟨"poison", 1, 1⟩] := by
  have := ((C4_theorem.2.2 (Character.make "H" 10 0 0 0 0 0 [] [⟨"poison", 1, 3⟩])
    "poison" 1 rfl).1 2 (by norm_num))
  simpa using this

section Preservation

variable (Q : BattleChars → Prop)

/-- Any state predicate preserved by `apply_effect` is preserved by the
effect loop of a skill. -/
lemma pres_runEffects
    (hAE : ∀ chars actorId e targetId, Q chars → Q (apply_effect chars actorId e targetId).1) :
    ∀ (es : List Effect) (actorId : ActorId) (chars : BattleChars)
      (target : Option ActorId), Q chars → Q (runEffects actorId chars target es).1 := by
  intro es
  induction es with
  | nil => intro aid chars t h; simpa [runEffects] using h
  | cons e rest ih =>
    intro aid chars t h
    simp only [runEffects]
    split
    · exact h
    · split
      · split
        · exact h
        · exact ih aid _ _ (hAE _ _ _ _ h)
      · exact ih aid _ _ (hAE _ _ _ _ h)

/-- Preservation through `execute_skill`. -/
lemma pres_execute_skill
    (hAE : ∀ chars actorId e targetId, Q chars → Q (apply_effect chars actorId e targetId).1) :
    ∀ (chars : BattleChars) (actorId : ActorId) (i : Nat),
      Q chars → Q (execute_skill chars actorId i).1 := by
  intro chars aid i h
  exact pres_runEffects Q hAE _ aid chars _ h

/-- Preservation through the per-actor action loop. -/
lemma pres_runSkillIdxs
    (hAE : ∀ chars actorId e targetId, Q chars → Q (apply_effect chars actorId e targetId).1) :
    ∀ (idxs : List Nat) (actorId : ActorId) (chars : BattleChars),
      Q chars → Q (runSkillIdxs actorId chars idxs).1 := by
  intro idxs
  induction idxs with
  | nil => intro aid chars h; simpa [runSkillIdxs] using h
  | cons i rest ih =>
    intro aid chars h
    simp only [runSkillIdxs]
    split
    · exact h
    · exact ih aid _ (pres_execute_skill Q hAE _ aid i h)

/-- Preservation through the per-turn actor loop. -/
lemma pres_runActors
    (hAE : ∀ chars actorId e targetId, Q chars → Q (apply_effect chars actorId e targetId).1) :
    ∀ (ids : List ActorId) (chars : BattleChars),
      Q chars → Q (runActors chars ids).1 := by
  intro ids
  induction ids with
  | nil => intro chars h; simpa [runActors] using h
  | cons id rest ih =>
    intro chars h
    simp only [runActors]
    split
    · exact h
    · exact ih _ (pres_runSkillIdxs Q hAE _ id chars h)

/-- Preservation through one full turn. -/
lemma pres_doTurn
    (hAE : ∀ chars actorId e targetId, Q chars → Q (apply_effect chars actorId e targetId).1)
    (hTick : ∀ chars, Q chars → Q (tick_status_effects chars)) :
    ∀ (chars : BattleChars) (tn : Nat), Q chars → Q (doTurn chars tn).1 := by
  intro chars tn h
  exact hTick _ (pres_runActors Q hAE _ chars h)

/-- Preservation through the run loop. -/
lemma pres_runTurns
    (hAE : ∀ chars actorId e targetId, Q chars → Q (apply_effect chars actorId e targetId).1)
    (hTick : ∀ chars, Q chars → Q (tick_status_effects chars)) :
    ∀ (fuel tn : Nat) (chars : BattleChars),
      Q chars → Q (runTurns fuel tn chars).1 := by
  intro fuel
  induction fuel with
  | zero => intro tn chars h; simpa [runTurns] using h
  | succ fuel ih =>
    intro tn chars h
    simp only [runTurns]
    split
    · exact h
    · exact ih _ _ (pres_doTurn Q hAE hTick chars _ h)

/-- Preservation through `Battle.run`. -/
lemma pres_run
    (hAE : ∀ chars actorId e targetId, Q chars → Q (apply_effect chars actorId e targetId).1)
    (hTick : ∀ chars, Q chars → Q (tick_status_effects chars)) :
    ∀ b : Battle, Q b.chars → Q (b.run).1.chars := by
  intro b h
  exact pres_runTurns Q hAE hTick MAX_TURNS 0 b.chars h

end Preservation

/-- The HP invariant of one character. -/
def hpInv (c : Character) : Prop := 0 ≤ c.hp ∧ c.hp ≤ c.max_hp

/-- The HP invariant over a whole battle state. -/
def hpInvChars (chars : BattleChars) : Prop :=
  hpInv chars.player ∧ ∀ c ∈ chars.enemies, hpInv c

lemma hpInv_defaultChar : hpInv defaultChar := by
  constructor
  · norm_num [defaultChar, Character.make]
  · norm_num [defaultChar, Character.make]

lemma hpInv_take_damage (c : Character) (a : Int) (h : hpInv c) :
    hpInv (c.take_damage a).1 := by
  obtain ⟨h1, h2⟩ := h
  simp only [hpInv, Character.take_damage]
  omega

lemma hpInv_heal_hp (c : Character) (a : Int) (h : hpInv c) :
    hpInv (c.heal_hp a).1 := by
  obtain ⟨h1, h2⟩ := h
  simp only [hpInv, Character.heal_hp]
  omega

lemma hpInv_apply_status (c : Character) (s : StatusEffect) (h : hpInv c) :
    hpInv (c.apply_status s) := h

lemma hpInv_tick_status (c : Character) (h : hpInv c) :
    hpInv (tick_status c) := h

lemma hpInv_getD (l : List Character) (i : Nat) (h : ∀ c ∈ l, hpInv c) :
    hpInv (l.getD i defaultChar) := by
  induction l generalizing i with
  | nil => simpa [List.getD] using hpInv_defaultChar
  | cons a rest ih =>
    cases i with
    | zero => exact h a (by simp)
    | succ j => exact ih j (fun c hc => h c (by simp [hc]))

lemma hpInv_getChar (chars : BattleChars) (id : ActorId) (h : hpInvChars chars) :
    hpInv (getChar chars id) := by
  cases id with
  | player => exact h.1
  | enemy i => exact hpInv_getD chars.enemies i h.2

lemma hpInvChars_setChar (chars : BattleChars) (id : ActorId) (c : Character)
    (h : hpInvChars chars) (hc : hpInv c) : hpInvChars (setChar chars id c) := by
  cases id with
  | player => exact ⟨hc, h.2⟩
  | enemy i =>
    refine ⟨h.1, fun x hx => ?_⟩
    rcases List.mem_or_eq_of_mem_set hx with hmem | rfl
    · exact h.2 x hmem
    · exact hc

lemma hpInvChars_apply_effect (chars : BattleChars) (actorId : ActorId)
    (e : Effect) (targetId : ActorId) (h : hpInvChars chars) :
    hpInvChars (apply_effect chars actorId e targetId).1 := by
  simp only [apply_effect]
  split
  · exact hpInvChars_setChar _ _ _ h
      (hpInv_take_damage _ _ (hpInv_getChar chars targetId h))
  · split
    · exact hpInvChars_setChar _ _ _ h
        (hpInv_heal_hp _ _ (hpInv_getChar chars actorId h))
    · split
      · exact hpInvChars_setChar _ _ _ h
          (hpInv_apply_status _ _ (hpInv_getChar chars targetId h))
      · exact h

lemma hpInvChars_tick (chars : BattleChars) (h : hpInvChars chars) :
    hpInvChars (tick_status_effects chars) := by
  refine ⟨hpInv_tick_status _ h.1, fun c hc => ?_⟩
  rcases List.mem_map.mp hc with ⟨c₀, hc₀, rfl⟩
  exact hpInv_tick_status c₀ (h.2 c₀ hc₀)

/-- C6: for any character with `0 <= hp <= max_hp`, both `take_damage`
and `heal_hp` preserve `0 <= hp <= max_hp` for every integer amount
(negative included); a character constructed with `hp = max_hp` (and a
non-negative `max_hp`) satisfies the invariant; and `run` carries the
invariant from the initial state of every character to the final one. -/
theorem C6_theorem :
    (∀ (c : Character) (amt : Int), hpInv c → hpInv (c.take_damage amt).1) ∧
    (∀ (c : Character) (amt : Int), hpInv c → hpInv (c.heal_hp amt).1) ∧
    (∀ c : Character, c.hp = c.max_hp → 0 ≤ c.max_hp → hpInv c) ∧
    (∀ b : Battle, hpInvChars b.chars → hpInvChars (b.run).1.chars) := by
  refine ⟨hpInv_take_damage, hpInv_heal_hp, ?_, ?_⟩
  · intro c h1 h2
    exact ⟨h1 ▸ h2, h1.le⟩
  · exact pres_run hpInvChars hpInvChars_apply_effect hpInvChars_tick

/-- C6 witness: the run-level invariant applied to a concrete battle. -/
theorem C6_witness :
    hpInvChars
      ((Battle.mk
          ⟨Character.make "Hero" 200 50 100 15 10 1 [⟨"Attack", [⟨"damage", 1, none⟩]⟩] [],
            [Character.make "Slime" 30 50 5 15 1 1 [⟨"Attack", [⟨"damage", 1, none⟩]⟩] []]⟩
          []).run).1.chars :=
  C6_theorem.2.2.2 _ (by constructor <;> simp [hpInvChars, hpInv, Character.make])

/-- The battle-immutable part of a character: every field except `hp` and
`status_effects` (which are zeroed out, so `frameOf c = frameOf c'` says
exactly that `name`, `max_hp`, `max_sp`, `sp`, `atk`, `rcv`, `speed`,
`action_count` and `skills` coincide). -/
def frameOf (c : Character) : Character :=
  { c with hp := 0, status_effects := [] }

/-- The frames of a whole battle state. -/
def framesOf (chars : BattleChars) : Character × List Character :=
  (frameOf chars.player, chars.enemies.map frameOf)

lemma frameOf_take_damage (c : Character) (a : Int) :
    frameOf (c.take_damage a).1 = frameOf c := rfl

lemma frameOf_heal_hp (c : Character) (a : Int) :
    frameOf (c.heal_hp a).1 = frameOf c := rfl

lemma frameOf_apply_status (c : Character) (s : StatusEffect) :
    frameOf (c.apply_status s) = frameOf c := rfl

lemma frameOf_tick_status (c : Character) :
    frameOf (tick_status c) = frameOf c := rfl

lemma map_frameOf_set (l : List Character) (i : Nat) (c : Character)
    (h : frameOf c = frameOf (l.getD i defaultChar)) :
    (l.set i c).map frameOf = l.map frameOf := by
  induction l generalizing i with
  | nil => rfl
  | cons a rest ih =>
    cases i with
    | zero => simpa [List.set] using h
    | succ j => simpa [List.set] using ih j h

lemma framesOf_setChar (chars : BattleChars) (id : ActorId) (c : Character)
    (h : frameOf c = frameOf (getChar chars id)) :
    framesOf (setChar chars id c) = framesOf chars := by
  cases id with
  | player => simp [framesOf, setChar, getChar] at h ⊢; exact h
  | enemy i =>
    simp only [framesOf, setChar]
    rw [map_frameOf_set chars.enemies i c h]

lemma framesOf_apply_effect (chars : BattleChars) (actorId : ActorId)
    (e : Effect) (targetId : ActorId) :
    framesOf (apply_effect chars actorId e targetId).1 = framesOf chars := by
  simp only [apply_effect]
  split
  · exact framesOf_setChar _ _ _ (frameOf_take_damage _ _)
  · split
    · exact framesOf_setChar _ _ _ (frameOf_heal_hp _ _)
    · split
      · exact framesOf_setChar _ _ _ (frameOf_apply_status _ _)
      · rfl

lemma frameOf_eq_fields {c c' : Character} (h : frameOf c = frameOf c') :
    c.name = c'.name ∧ c.max_hp = c'.max_hp ∧ c.max_sp = c'.max_sp ∧
    c.sp = c'.sp ∧ c.atk = c'.atk ∧ c.rcv = c'.rcv ∧ c.speed = c'.speed ∧
    c.action_count = c'.action_count ∧ c.skills = c'.skills := by
  cases c
  cases c'
  simp only [frameOf, Character.mk.injEq, and_true, true_and] at h
  obtain ⟨h1, h2, h3, h4, h5, h6, h7, h8, h9⟩ := h
  exact ⟨h1, h2, h3, h9, h4, h5, h6, h7, h8⟩

lemma framesOf_tick (chars : BattleChars) :
    framesOf (tick_status_effects chars) = framesOf chars := by
  simp only [framesOf, tick_status_effects, List.map_map]
  rfl

/-- C9: `run` never changes any character's `name`, `max_hp`, `max_sp`,
`sp`, `atk`, `rcv`, `speed`, `action_count` or `skills` (with every skill
and effect definition intact): the player keeps all those fields, the
enemy roster keeps its length, and every enemy keeps its frame — only
`hp` and `status_effects` can differ. -/
theorem C9_theorem (b : Battle) :
    (b.run).1.chars.player.name = b.chars.player.name ∧
    (b.run).1.chars.player.max_hp = b.chars.player.max_hp ∧
    (b.run).1.chars.player.max_sp = b.chars.player.max_sp ∧
    (b.run).1.chars.player.sp = b.chars.player.sp ∧
    (b.run).1.chars.player.atk = b.chars.player.atk ∧
    (b.run).1.chars.player.rcv = b.chars.player.rcv ∧
    (b.run).1.chars.player.speed = b.chars.player.speed ∧
    (b.run).1.chars.player.action_count = b.chars.player.action_count ∧
    (b.run).1.chars.player.skills = b.chars.player.skills ∧
    (b.run).1.chars.enemies.length = b.chars.enemies.length ∧
    (b.run).1.chars.enemies.map frameOf = b.chars.enemies.map frameOf := by
  have key : framesOf (b.run).1.chars = framesOf b.chars := by
    refine pres_run (fun chars => framesOf chars = framesOf b.chars) ?_ ?_ b rfl
    · intro chars actorId e targetId h
      rw [framesOf_apply_effect, h]
    · intro chars h
      rw [framesOf_tick, h]
  have hp : frameOf (b.run).1.chars.player = frameOf b.chars.player :=
    congrArg Prod.fst key
  have he : (b.run).1.chars.enemies.map frameOf = b.chars.enemies.map frameOf :=
    congrArg Prod.snd key
  obtain ⟨h1, h2, h3, h4, h5, h6, h7, h8, h9⟩ := frameOf_eq_fields hp
  refine ⟨h1, h2, h3, h4, h5, h6, h7, h8, h9, ?_, he⟩
  have := congrArg List.length he
  simpa using this

/-- The run loop records at most `fuel` turns. -/
lemma runTurns_length_le :
    ∀ (fuel tn : Nat) (chars : BattleChars),
      (runTurns fuel tn chars).2.length ≤ fuel := by
  intro fuel
  induction fuel with
  | zero => intro tn chars; simp [runTurns]
  | succ fuel ih =>
    intro tn chars
    simp only [runTurns]
    split
    · simp
    · simpa using Nat.succ_le_succ (ih (tn + 1) _)

/-- If the loop stops while the battle is over, it stopped early or never
ran; if it ends with the battle not over, it consumed all its fuel. -/
lemma runTurns_full :
    ∀ (fuel tn : Nat) (chars : BattleChars),
      is_over (runTurns fuel tn chars).1 = false →
      (runTurns fuel tn chars).2.length = fuel := by
  intro fuel
  induction fuel with
  | zero => intro tn chars _; rfl
  | succ fuel ih =>
    intro tn chars h
    by_cases hover : is_over chars = true
    · rw [runTurns, if_pos hover] at h ⊢
      simp only at h
      rw [h] at hover
      cases hover
    · rw [runTurns, if_neg hover] at h ⊢
      simpa using ih (tn + 1) _ h

/-- A battle that is already over runs zero turns. -/
lemma runTurns_over (fuel tn : Nat) (chars : BattleChars)
    (h : is_over chars = true) : runTurns fuel tn chars = (chars, []) := by
  cases fuel with
  | zero => rfl
  | succ fuel => rw [runTurns, if_pos h]

/-- C5: `run` is a total function (the embedding needs no fuel beyond the
source's own `_MAX_TURNS` counter, mirroring `while ... and turn_number <
_MAX_TURNS`) and it appends at most 100 turn records to the log, for every
input battle. -/
theorem C5_theorem (b : Battle) :
    (b.run).2.turns.length ≤ b.turnLogs.length + 100 ∧
    (b.run).1.turnLogs.length = (b.run).2.turns.length ∧
    (b.turnLogs = [] → (b.run).2.turns.length ≤ 100) := by
  have hlen : (runTurns MAX_TURNS 0 b.chars).2.length ≤ 100 :=
    runTurns_length_le MAX_TURNS 0 b.chars
  refine ⟨?_, rfl, ?_⟩
  · simp only [Battle.run, List.length_append]
    omega
  · intro hnil
    simp only [Battle.run, hnil, List.nil_append, List.length_nil]
    exact hlen

/-- C5 witness: the fresh-battle bound applied to a concrete battle. -/
theorem C5_witness :
    ((Battle.mk
        ⟨Character.make "P" 10 0 0 0 1 1 [] [],
          [Character.make "E" 10 0 0 0 1 1 [] []]⟩ []).run).2.turns.length ≤ 100 :=
  (C5_theorem _).2.2 rfl

/-- The outcome conditional, characterised against the final state. -/
lemma outcome_spec (chars : BattleChars) :
    (outcome chars = "player_win" ↔
      (chars.player.is_alive = true ∧ living_enemies chars = [])) ∧
    (outcome chars = "player_lose" ↔ chars.player.is_alive = false) ∧
    (outcome chars = "draw" ↔
      (chars.player.is_alive = true ∧ living_enemies chars ≠ [])) := by
  by_cases h1 : chars.player.is_alive = true ∧ living_enemies chars = []
  · have : chars.player.is_alive = true := h1.1
    simp [outcome, h1, this, h1.2]
  · by_cases h2 : chars.player.is_alive = false
    · have hne : ¬ (chars.player.is_alive = true) := by simp [h2]
      simp [outcome, h1, h2, hne]
    · have halive : chars.player.is_alive = true := by
        cases hb : chars.player.is_alive
        · exact absurd hb h2
        · rfl
      have hliving : living_enemies chars ≠ [] := by
        intro hempty
        exact h1 ⟨halive, hempty⟩
      simp [outcome, h1, h2, halive, hliving]

/-- C3: after the run loop exits, the result is `player_win` iff the
player is alive and no enemy is; otherwise `player_lose` iff the player is
dead (so a simultaneous mutual wipe resolves to `player_lose`, never
`draw`); otherwise `draw`, which happens exactly when both sides have
survivors — and then the loop ran the full 100-turn cap. -/
theorem C3_theorem (b : Battle) :
    ((b.run).2.result = "player_win" ↔
      ((b.run).1.chars.player.is_alive = true ∧
        living_enemies (b.run).1.chars = [])) ∧
    ((b.run).2.result = "player_lose" ↔
      (b.run).1.chars.player.is_alive = false) ∧
    ((b.run).2.result = "draw" ↔
      ((b.run).1.chars.player.is_alive = true ∧
        living_enemies (b.run).1.chars ≠ [])) ∧
    ((b.run).1.chars.player.is_alive = false ∧
        living_enemies (b.run).1.chars = [] →
      (b.run).2.result = "player_lose" ∧ (b.run).2.result ≠ "draw") ∧
    ((b.run).2.result = "draw" →
      (b.run).1.turnLogs.length = b.turnLogs.length + 100) := by
  have hspec := outcome_spec (runTurns MAX_TURNS 0 b.chars).1
  have hres : (b.run).2.result = outcome (runTurns MAX_TURNS 0 b.chars).1 := rfl
  have hchars : (b.run).1.chars = (runTurns MAX_TURNS 0 b.chars).1 := rfl
  rw [hres, hchars]
  refine ⟨hspec.1, hspec.2.1, hspec.2.2, ?_, ?_⟩
  · intro h
    refine ⟨hspec.2.1.mpr h.1, ?_⟩
    intro hdraw
    have := (hspec.2.2.mp hdraw).1
    rw [this] at h
    cases h.1
  · intro hdraw
    have halive := hspec.2.2.mp hdraw
    have hnotover : is_over (runTurns MAX_TURNS 0 b.chars).1 = false := by
      simp only [is_over, Bool.or_eq_false_iff, Bool.not_eq_true']
      refine ⟨by simp [halive.1], ?_⟩
      cases hl : (living_enemies (runTurns MAX_TURNS 0 b.chars).1).isEmpty
      · rfl
      · exact absurd (List.isEmpty_iff.mp hl) halive.2
    have h100 : (runTurns 100 0 b.chars).2.length = 100 :=
      runTurns_full MAX_TURNS 0 b.chars hnotover
    simp only [Battle.run, List.length_append, MAX_TURNS, h100]

/-- C3 witness: the mutual-wipe priority and win characterisation applied
to a concrete battle the player wins. -/
theorem C3_witness :
    ((Battle.mk
        ⟨Character.make "Hero" 200 50 100 15 10 1 [⟨"Attack", [⟨"damage", 1, none⟩]⟩] [],
          [Character.make "Slime" 30 50 5 15 1 1 [⟨"Attack", [⟨"damage", 1, none⟩]⟩] []]⟩
        []).run).2.result = "player_win" :=
  (C3_theorem _).1.mpr (by decide)

/-- A battle for C1: the fast player one-shots the speed-5 enemy `E1` on
turn 1, with the slower enemy `E2` still alive and scheduled after `E1`
in the precomputed acting order. -/
def battleC1 : Battle :=
  Battle.mk
    ⟨Character.make "Hero" 100 0 30 0 10 1 [⟨"Attack", [⟨"damage", 1, none⟩]⟩] [],
      [Character.make "E1" 10 0 1 0 5 1 [⟨"Attack", [⟨"damage", 1, none⟩]⟩] [],
        Character.make "E2" 100 0 1 0 1 1 [⟨"Attack", [⟨"damage", 1, none⟩]⟩] []]⟩
    []

/-- C1 counterexample: in `battleC1`, turn 1's only action is the Hero's
(`E1` dies to it), even though `E2` — alive at the start of turn 1
(hp 100 in the turn-1 snapshot), still alive and untouched at the start of
turn 2, armed with a skill and a positive action budget — came later in
the precomputed order: the dead actor `E1` stopped the rest of the turn,
so the battle is *not* over yet `E2` never acts on turn 1, refuting
"subsequent living actors in the precomputed order still act". -/
theorem C1_counterexample :
    ((battleC1.run).2.turns.map (fun t => t.actions.map (fun a => a.actor))) =
      [["Hero"], ["Hero", "E2"], ["Hero", "E2"], ["Hero", "E2"], ["Hero"]] ∧
    (((battleC1.run).2.turns.map
        (fun t => t.status_at_start.map (fun s => (s.name, s.hp)))).getD 0 []) =
      [("Hero", 100), ("E1", 10), ("E2", 100)] ∧
    (((battleC1.run).2.turns.map
        (fun t => t.status_at_start.map (fun s => (s.name, s.hp)))).getD 1 []) =
      [("Hero", 100), ("E1", 0), ("E2", 100)] := by
  decide

/-- C1 (amended): when the per-actor loop reaches an actor that has died
mid-turn (or finds the battle over), it does not merely skip that actor:
it stops the rest of the turn, so subsequent living actors in the
precomputed order do not act that turn. -/
theorem C1_theorem (chars : BattleChars) (id : ActorId) (rest : List ActorId)
    (h : (getChar chars id).is_alive = false ∨ is_over chars = true) :
    runActors chars (id :: rest) = (chars, []) := by
  simp only [runActors]
  rw [if_pos h]

/-- C1 witness: the amended break behaviour at a concrete state — a dead
enemy heads the remaining order and the living enemy behind it is cut off. -/
theorem C1_witness :
    runActors
      ⟨Character.make "P" 10 0 0 0 1 1 [] [],
        [Character.make "D" 0 0 0 0 5 1 [] [],
          Character.make "L" 10 0 0 0 1 1 [] []]⟩
      [ActorId.enemy 0, ActorId.enemy 1] =
    (⟨Character.make "P" 10 0 0 0 1 1 [] [],
        [Character.make "D" 0 0 0 0 5 1 [] [],
          Character.make "L" 10 0 0 0 1 1 [] []]⟩, []) :=
  C1_theorem _ _ _ (Or.inl (by decide))

/-- A battle for C2 with no skills on either side: it runs to the 100-turn
cap and ends in a draw with both characters alive. -/
def battleC2 : Battle :=
  Battle.mk
    ⟨Character.make "P" 10 0 0 0 1 1 [] [],
      [Character.make "E" 10 0 0 0 1 1 [] []]⟩
    []

set_option maxRecDepth 100000 in
/-- C2 counterexample: after a first run that ends in a `draw` via the
100-turn cap, calling `run` again is *not* a no-op — the local turn
counter restarts at 0 and the battle is not over, so the loop runs 100
further turns and the log doubles to 200 records. -/
theorem C2_counterexample :
    (battleC2.run).2.result = "draw" ∧
    (battleC2.run).2.turns.length = 100 ∧
    (((battleC2.run).1).run).2.turns.length = 200 ∧
    (((battleC2.run).1).run).1.turnLogs.length = 200 := by
  decide

/-- C2 (amended): re-running is a no-op exactly for runs that ended with
the battle over: if the first run returned `player_win` or `player_lose`,
a second `run` appends no turn records and returns the same turn list
(after a `draw` it runs again, see the counterexample). -/
theorem C2_theorem (b : Battle)
    (h : (b.run).2.result = "player_win" ∨ (b.run).2.result = "player_lose") :
    ((b.run).1.run).1.turnLogs = (b.run).1.turnLogs ∧
    ((b.run).1.run).2.turns = (b.run).2.turns := by
  have hspec := outcome_spec (runTurns MAX_TURNS 0 b.chars).1
  have hover : is_over (b.run).1.chars = true := by
    show is_over (runTurns MAX_TURNS 0 b.chars).1 = true
    rcases h with h | h
    · have hwin : outcome (runTurns MAX_TURNS 0 b.chars).1 = "player_win" := h
      have := hspec.1.mp hwin
      simp [is_over, this.2]
    · have hlose : outcome (runTurns MAX_TURNS 0 b.chars).1 = "player_lose" := h
      have := hspec.2.1.mp hlose
      simp [is_over, this]
  have hrt : runTurns MAX_TURNS 0 (b.run).1.chars = ((b.run).1.chars, []) :=
    runTurns_over MAX_TURNS 0 _ hover
  constructor
  · show (b.run).1.turnLogs ++ (runTurns MAX_TURNS 0 (b.run).1.chars).2 =
      (b.run).1.turnLogs
    rw [hrt]
    simp
  · show (b.run).1.turnLogs ++ (runTurns MAX_TURNS 0 (b.run).1.chars).2 =
      (b.run).2.turns
    rw [hrt]
    simp
    rfl

/-- A battle for the C2 witness: the player one-shots the lone enemy, so
the first run ends `player_win` after one turn. -/
def battleC2win : Battle :=
  Battle.mk
    ⟨Character.make "Hero" 10 0 10 0 2 1 [⟨"Attack", [⟨"damage", 1, none⟩]⟩] [],
      [Character.make "E" 5 0 0 0 1 1 [] []]⟩
    []

/-- C2 witness: the amended no-op applied after a concrete winning run. -/
theorem C2_witness :
    ((battleC2win.run).1.run).1.turnLogs = (battleC2win.run).1.turnLogs ∧
    ((battleC2win.run).1.run).2.turns = (battleC2win.run).2.turns :=
  C2_theorem battleC2win (Or.inl (by decide))

/-- C10: an effect whose type is none of `damage`, `heal`, `status` leaves
the whole battle state unchanged and produces a record holding only the
`effect_type` and `coefficient` keys; in the effect loop it takes the
self-target else-branch — no target re-query, no stop on a missing
target — and the loop just logs the bare record and continues on the same
state and cached target. -/
theorem C10_theorem (chars : BattleChars) (actorId : ActorId) (e : Effect)
    (targetId : ActorId) (target : Option ActorId) (rest : List Effect)
    (h1 : e.effect_type ≠ "damage") (h2 : e.effect_type ≠ "heal")
    (h3 : e.effect_type ≠ "status") :
    apply_effect chars actorId e targetId = (chars, baseRecord e) ∧
    (baseRecord e).target = none ∧ (baseRecord e).damage = none ∧
    (baseRecord e).healed = none ∧ (baseRecord e).status_name = none ∧
    (baseRecord e).magnitude = none ∧
    ((getChar chars actorId).is_alive = true →
      runEffects actorId chars target (e :: rest) =
        ((runEffects actorId chars target rest).1,
          baseRecord e :: (runEffects actorId chars target rest).2)) := by
  have happ : apply_effect chars actorId e targetId = (chars, baseRecord e) := by
    simp [apply_effect, h1, h2, h3]
  refine ⟨happ, rfl, rfl, rfl, rfl, rfl, ?_⟩
  intro halive
  have hne : ¬(e.effect_type = "damage" ∨ e.effect_type = "status") := by
    rintro (h | h)
    · exact h1 h
    · exact h3 h
  have happ' : apply_effect chars actorId e actorId = (chars, baseRecord e) := by
    simp [apply_effect, h1, h2, h3]
  simp only [runEffects]
  rw [if_neg (by simp [halive]), if_neg hne, happ']

/-- C10 witness: a one-effect skill of unknown type `"buff"` executed by a
living actor with no cached target logs exactly the bare record and leaves
the state untouched. -/
theorem C10_witness :
    runEffects ActorId.player
      ⟨Character.make "P" 10 0 3 0 1 1 [] [], []⟩ none
      [Effect.mk "buff" 2 none] =
    (⟨Character.make "P" 10 0 3 0 1 1 [] [], []⟩,
      [baseRecord (Effect.mk "buff" 2 none)]) := by
  have := (C10_theorem ⟨Character.make "P" 10 0 3 0 1 1 [] [], []⟩
    ActorId.player (Effect.mk "buff" 2 none) ActorId.player none []
    (by decide) (by decide) (by decide)).2.2.2.2.2.2 (by decide)
  simpa [runEffects] using this

end RPG
